import Mathlib

/-!
Shallow embedding of `src/results_implementation.py` (the cervical-cell
k-fold cross-validation section, lines 197-311): the metrics calculator
`calculate_metrics`, the model factory `get_model`, the stratified splitter
(sklearn's `StratifiedKFold` as invoked with `shuffle=True, random_state=42`)
and the evaluation harness `federated_kfold_cross_validation`.

Numeric conventions: Python floats are embedded as rationals (`ℚ`); the
threshold default `0.5` is exactly `1/2`.  Fallible Python code (raised
`ValueError`s) is embedded as `Except String`.  The harness's observable
side effect - one training invocation per (model, fold) - is embedded as an
explicit list of `TrainEvent`s returned next to the result.
-/

namespace ProiectFL

/-- Classification metrics record returned by `calculate_metrics` at
line 266: accuracy, sensitivity, specificity and roc_auc. -/
structure MetricsRecord where
  accuracy : ℚ
  sensitivity : ℚ
  specificity : ℚ
  roc_auc : ℚ
deriving DecidableEq

/-- Binarization step of `calculate_metrics` (line 259):
`y_pred = (y_pred_prob[:, 1] > threshold).astype(int)` - strict
greater-than against the positive-class column. -/
def binarize (y_pred_prob : List (ℚ × ℚ)) (threshold : ℚ) : List ℕ :=
  y_pred_prob.map (fun p => if threshold < p.2 then 1 else 0)

/-- Sorted distinct labels of a label list, as `np.unique` computes them for
`sklearn.metrics.confusion_matrix` (labels are naturals here). -/
def uniqueLabels (ys : List ℕ) : List ℕ :=
  (List.range (ys.foldr max 0 + 1)).filter (fun l => decide (l ∈ ys))

/-- Number of positions carrying the (true, predicted) pair (a, b); entry
(a, b) of the confusion matrix. -/
def pairCount (y_true y_pred : List ℕ) (a b : ℕ) : ℕ :=
  (y_true.zip y_pred).countP (fun q => q.1 == a && q.2 == b)

/-- Row-major flattening `confusion_matrix(y_true, y_pred).ravel()`
(line 260-261): one entry per ordered pair of observed labels. -/
def cmRavel (y_true y_pred : List ℕ) : List ℕ :=
  (uniqueLabels (y_true ++ y_pred)).flatMap
    (fun a => (uniqueLabels (y_true ++ y_pred)).map (fun b => pairCount y_true y_pred a b))

/-- True negatives: confusion-matrix entry (0, 0). -/
def tnOf (y_true y_pred : List ℕ) : ℕ := pairCount y_true y_pred 0 0

/-- False positives: confusion-matrix entry (0, 1). -/
def fpOf (y_true y_pred : List ℕ) : ℕ := pairCount y_true y_pred 0 1

/-- False negatives: confusion-matrix entry (1, 0). -/
def fnOf (y_true y_pred : List ℕ) : ℕ := pairCount y_true y_pred 1 0

/-- True positives: confusion-matrix entry (1, 1). -/
def tpOf (y_true y_pred : List ℕ) : ℕ := pairCount y_true y_pred 1 1

/-- Guarded ratio used at lines 263-264:
`num / den if den > 0 else 0`. -/
def guardedDiv (num den : ℕ) : ℚ :=
  if 0 < den then (num : ℚ) / (den : ℚ) else 0

/-- Scores of the samples whose true label is 1 (the positives). -/
def posScores (y_true : List ℕ) (scores : List ℚ) : List ℚ :=
  ((y_true.zip scores).filter (fun q => q.1 == 1)).map Prod.snd

/-- Scores of the samples whose true label is 0 (the negatives). -/
def negScores (y_true : List ℕ) (scores : List ℚ) : List ℚ :=
  ((y_true.zip scores).filter (fun q => q.1 == 0)).map Prod.snd

/-- `sklearn.metrics.roc_auc_score(y_true, scores)` for binary labels: the
probability that a random positive is ranked above a random negative, ties
counting one half; raises when `y_true` holds a single class (or labels
outside 0/1). -/
def rocAucScore (y_true : List ℕ) (scores : List ℚ) : Except String ℚ :=
  if y_true.any (fun l => !(l == 0 || l == 1)) then
    Except.error "roc_auc_score: labels other than 0 and 1 are not supported"
  else if (posScores y_true scores).isEmpty || (negScores y_true scores).isEmpty then
    Except.error "Only one class present in y_true. ROC AUC score is not defined in that case."
  else
    Except.ok (((posScores y_true scores).map (fun ps => ((negScores y_true scores).map (fun ns =>
      if ns < ps then (1 : ℚ) else if ps = ns then (1 : ℚ) / 2 else 0)).sum)).sum
      / (((posScores y_true scores).length : ℚ) * ((negScores y_true scores).length : ℚ)))

/-- Body of `calculate_metrics` (lines 260-266) after the binarization step:
confusion matrix, four-way unpacking (raises unless exactly two distinct
labels occur), `accuracy_score`, the two guarded ratios, and
`roc_auc_score` on the positive-class scores. -/
def metricsFromPred (y_true y_pred : List ℕ) (scores : List ℚ) : Except String MetricsRecord :=
  if y_true.length ≠ y_pred.length then
    Except.error "Found input variables with inconsistent numbers of samples"
  else
    match cmRavel y_true y_pred with
    | [tn, fp, fn, tp] =>
      let accuracy : ℚ := (((y_true.zip y_pred).countP (fun q => q.1 == q.2) : ℕ) : ℚ) / (y_true.length : ℚ)
      let sensitivity : ℚ := guardedDiv tp (tp + fn)
      let specificity : ℚ := guardedDiv tn (tn + fp)
      match rocAucScore y_true scores with
      | Except.error e => Except.error e
      | Except.ok roc_auc => Except.ok ⟨accuracy, sensitivity, specificity, roc_auc⟩
    | _ => Except.error "not enough values to unpack"

/-- `calculate_metrics(y_true, y_pred_prob, threshold)` (lines 258-266). -/
def calculate_metrics (y_true : List ℕ) (y_pred_prob : List (ℚ × ℚ)) (threshold : ℚ) :
    Except String MetricsRecord :=
  metricsFromPred y_true (binarize y_pred_prob threshold) (y_pred_prob.map Prod.snd)

/-- Default value of the `threshold` parameter (line 258): 0.5. -/
def defaultThreshold : ℚ := 1 / 2

/-- `calculate_metrics` invoked without an explicit threshold, as the
harness does at line 290. -/
def calculate_metricsDefault (y_true : List ℕ) (y_pred_prob : List (ℚ × ℚ)) :
    Except String MetricsRecord :=
  calculate_metrics y_true y_pred_prob defaultThreshold

/-- Modelled from the spec: the seeded shuffle `rng.shuffle` of numpy's
`RandomState(42)` used inside `StratifiedKFold` - an external, opaque
capability ("seeded for reproducibility").  It is embedded as a
deterministic, seed-indexed permutation (a rotation); the exact Mersenne
Twister permutation is not reproduced, only that the shuffle is a
permutation fully determined by the seed, which is all the harness's
stated properties rely on. -/
def pseudoShuffle (seed : ℕ) (l : List ℕ) : List ℕ :=
  l.rotate (seed % (l.length + 1))

/-- Position at which class `c` starts inside the sorted label vector
`y_order` of `StratifiedKFold._make_test_folds`: the total count of the
strictly smaller classes. -/
def classStart (labels : List ℕ) (c : ℕ) : ℕ :=
  (((uniqueLabels labels).filter (fun x => decide (x < c))).map (fun x => labels.count x)).sum

/-- Fold labels allocated to class `c` before shuffling, as
`StratifiedKFold` computes them: class `c` occupies the positions
`classStart c + t` (for `t < count c`) of the sorted label vector, and the
allocation sends position `j` of that vector to fold `j % k`
(`np.arange(n_splits).repeat(allocation[:, c])` has exactly this
multiset of fold labels). -/
def foldsForClassRaw (labels : List ℕ) (k c : ℕ) : List ℕ :=
  (List.range (labels.count c)).map (fun t => (classStart labels c + t) % k)

/-- Shuffled per-class fold labels (`rng.shuffle(folds_for_class)`); the
evolving generator state across classes is embedded as `seed + c`. -/
def foldsForClass (labels : List ℕ) (k seed c : ℕ) : List ℕ :=
  pseudoShuffle (seed + c) (foldsForClassRaw labels k c)

/-- Entry `idx` of the `test_folds` array of
`StratifiedKFold._make_test_folds`: the sample's class is `labels[idx]`,
and `test_folds[y_encoded == c] = folds_for_class` assigns it the entry of
the shuffled per-class fold labels at its rank within its class. -/
def testFoldOf (labels : List ℕ) (k seed idx : ℕ) : ℕ :=
  (foldsForClass labels k seed (labels.getD idx 0)).getD
    ((labels.take idx).count (labels.getD idx 0)) 0

/-- The splitter `StratifiedKFold(n_splits=k, shuffle=True, random_state=seed)`
applied as `skf.split(images, labels)` (lines 269 and 274): validation
errors first (`n_splits` at least 2, at most the sample count, and not
larger than every class count), then for each fold `i` the pair
(train indices, test indices) where the test set of fold `i` is exactly
the positions assigned fold `i` by `testFoldOf`. -/
def skfSplit (labels : List ℕ) (k seed : ℕ) : Except String (List (List ℕ × List ℕ)) :=
  if k < 2 then
    Except.error "k-fold cross-validation requires at least one train/test split by setting n_splits=2 or more"
  else if labels.length < k then
    Except.error "Cannot have number of splits n_splits greater than the number of samples"
  else if (uniqueLabels labels).all (fun c => labels.count c < k) then
    Except.error "n_splits cannot be greater than the number of members in each class"
  else
    Except.ok ((List.range k).map (fun i =>
      ((List.range labels.length).filter (fun idx => !(testFoldOf labels k seed idx == i)),
       (List.range labels.length).filter (fun idx => testFoldOf labels k seed idx == i))))

/-- Opaque classifier value: `get_model` constructs untrained instances;
the external training capability may produce further values. -/
inductive KModel where
  | untrained (name : String)
  | trained (base : KModel)
deriving DecidableEq

/-- The model factory `get_model(model_name, input_shape)` (lines 202-256):
a closed if/elif chain over the five architecture names; any other name
raises `ValueError("Unsupported model name.")`.  The architectures
themselves (Keras layer stacks) are opaque to every stated property and
are embedded as `KModel.untrained` tagged with the name. -/
def get_model (model_name : String) : Except String KModel :=
  if model_name = "resnet" then Except.ok (KModel.untrained "resnet")
  else if model_name = "alexnet" then Except.ok (KModel.untrained "alexnet")
  else if model_name = "zfnet" then Except.ok (KModel.untrained "zfnet")
  else if model_name = "bionnica" then Except.ok (KModel.untrained "bionnica")
  else if model_name = "bfnet" then Except.ok (KModel.untrained "bfnet")
  else Except.error "Unsupported model name."

/-- One training invocation of the harness (the `fl_algorithm.fit` call of
lines 282-288, the observable side effect of a (model, fold) iteration):
which model name, which fold, the model value handed to the trainer, and
the fold's train and test index sets. -/
structure TrainEvent where
  modelName : String
  foldIdx : ℕ
  modelArg : KModel
  trainIdx : List ℕ
  testIdx : List ℕ
deriving DecidableEq

/-- One entry of `fold_results` (lines 292-298). -/
structure FoldRecord where
  fold : ℚ
  accuracy : ℚ
  sensitivity : ℚ
  specificity : ℚ
  roc_auc : ℚ
deriving DecidableEq

/-- One row of the result frame (lines 300-303): the model name together
with `pd.DataFrame(fold_results).mean()`, whose columns are `fold`,
`accuracy`, `sensitivity`, `specificity`, `roc_auc`. -/
structure ModelSummary where
  model : String
  fold : ℚ
  accuracy : ℚ
  sensitivity : ℚ
  specificity : ℚ
  roc_auc : ℚ
deriving DecidableEq

/-- Column mean of `pd.DataFrame(...).mean()`. -/
def meanQ (xs : List ℚ) : ℚ := xs.sum / (xs.length : ℚ)

/-- Reduction of one model's `fold_results` to its result row (line 299). -/
def mkSummary (m : String) (rs : List FoldRecord) : ModelSummary :=
  ⟨m, meanQ (rs.map FoldRecord.fold), meanQ (rs.map FoldRecord.accuracy),
    meanQ (rs.map FoldRecord.sensitivity), meanQ (rs.map FoldRecord.specificity),
    meanQ (rs.map FoldRecord.roc_auc)⟩

/-- One (model, fold) iteration of the loop body (lines 275-298): the
model factory runs first and its error aborts the fold with no training
invocation; otherwise the fold's data is sliced by the train/test indices,
the opaque trainer and predictor run (recorded as the training event), and
`calculate_metrics` with the default threshold produces the fold record
carrying the 1-based fold number. -/
def evalFold {α : Type} [Inhabited α] (trainFn : KModel → List α × List ℕ → KModel)
    (predictFn : KModel → List α → List (ℚ × ℚ)) (images : List α) (labels : List ℕ)
    (model_name : String) (fold : ℕ) (train_idx test_idx : List ℕ) :
    Option TrainEvent × Except String FoldRecord :=
  match get_model model_name with
  | Except.error e => (none, Except.error e)
  | Except.ok mdl =>
    let x_train := train_idx.map (fun j => images.getD j default)
    let y_train := train_idx.map (fun j => labels.getD j 0)
    let x_test := test_idx.map (fun j => images.getD j default)
    let y_test := test_idx.map (fun j => labels.getD j 0)
    let trainedModel := trainFn mdl (x_train, y_train)
    let y_pred_prob := predictFn trainedModel x_test
    (some ⟨model_name, fold, mdl, train_idx, test_idx⟩,
     match calculate_metricsDefault y_test y_pred_prob with
     | Except.error e => Except.error e
     | Except.ok r =>
       Except.ok ⟨(fold : ℚ) + 1, r.accuracy, r.sensitivity, r.specificity, r.roc_auc⟩)

/-- Inner fold loop of `federated_kfold_cross_validation` (lines 274-298)
for one model over the enumerated splits; a raised error stops the loop,
keeping the training invocations performed so far. -/
def evalFolds {α : Type} [Inhabited α] (trainFn : KModel → List α × List ℕ → KModel)
    (predictFn : KModel → List α → List (ℚ × ℚ)) (images : List α) (labels : List ℕ)
    (model_name : String) :
    List (ℕ × (List ℕ × List ℕ)) → List TrainEvent × Except String (List FoldRecord)
  | [] => ([], Except.ok [])
  | (fold, (train_idx, test_idx)) :: rest =>
    match evalFold trainFn predictFn images labels model_name fold train_idx test_idx with
    | (oev, Except.error e) => (oev.toList, Except.error e)
    | (oev, Except.ok r) =>
      match evalFolds trainFn predictFn images labels model_name rest with
      | (evs, Except.error e) => (oev.toList ++ evs, Except.error e)
      | (evs, Except.ok rs) => (oev.toList ++ evs, Except.ok (r :: rs))

/-- One model's pass of the outer loop (lines 271-277): the splitter is
invoked afresh for this model, then the fold loop runs. -/
def evalModel {α : Type} [Inhabited α] (trainFn : KModel → List α × List ℕ → KModel)
    (predictFn : KModel → List α → List (ℚ × ℚ)) (images : List α) (labels : List ℕ)
    (k : ℕ) (model_name : String) : List TrainEvent × Except String (List FoldRecord) :=
  match skfSplit labels k 42 with
  | Except.error e => ([], Except.error e)
  | Except.ok splits => evalFolds trainFn predictFn images labels model_name splits.enum

/-- Outer model loop of `federated_kfold_cross_validation` (lines 270-304):
each model's fold records are reduced to a summary row; a raised error
aborts the remaining work, with the training invocations performed so far
kept in the event list. -/
def runModels {α : Type} [Inhabited α] (trainFn : KModel → List α × List ℕ → KModel)
    (predictFn : KModel → List α → List (ℚ × ℚ)) (images : List α) (labels : List ℕ)
    (k : ℕ) : List String → List TrainEvent × Except String (List ModelSummary)
  | [] => ([], Except.ok [])
  | m :: rest =>
    match evalModel trainFn predictFn images labels k m with
    | (evs, Except.error e) => (evs, Except.error e)
    | (evs, Except.ok rs) =>
      match runModels trainFn predictFn images labels k rest with
      | (evs2, Except.error e) => (evs ++ evs2, Except.error e)
      | (evs2, Except.ok ss) => (evs ++ evs2, Except.ok (mkSummary m rs :: ss))

/-- `federated_kfold_cross_validation(images, labels, models, k)`
(lines 268-304).  The `StratifiedKFold` constructor validates
`n_splits` at least 2 before the model loop starts; the remaining
behaviour is the model loop. -/
def federated_kfold_cross_validation {α : Type} [Inhabited α]
    (trainFn : KModel → List α × List ℕ → KModel)
    (predictFn : KModel → List α → List (ℚ × ℚ)) (images : List α) (labels : List ℕ)
    (models : List String) (k : ℕ) : List TrainEvent × Except String (List ModelSummary) :=
  if k < 2 then
    ([], Except.error "k-fold cross-validation requires at least one train/test split by setting n_splits=2 or more")
  else runModels trainFn predictFn images labels k models

lemma binarize_mem {y_pred_prob : List (ℚ × ℚ)} {threshold : ℚ} {x : ℕ}
    (hx : x ∈ binarize y_pred_prob threshold) : x = 0 ∨ x = 1 := by
  rcases List.mem_map.mp hx with ⟨p, _, rfl⟩
  by_cases h : threshold < p.2 <;> simp [h]

lemma binarize_length (y_pred_prob : List (ℚ × ℚ)) (threshold : ℚ) :
    (binarize y_pred_prob threshold).length = y_pred_prob.length := by
  simp [binarize]

lemma binarize_eq_map_snd (y_pred_prob : List (ℚ × ℚ)) (t : ℚ) :
    binarize y_pred_prob t = (y_pred_prob.map Prod.snd).map (fun s => if t < s then 1 else 0) := by
  simp [binarize, List.map_map]

/-- C8: for every probability matrix, the binary prediction fed to the
confusion matrix is obtained by comparing each sample's positive-class
probability (the second column) with the threshold parameter, and the
default threshold of `calculate_metrics` is 0.5. -/
theorem C8_threshold_binarization (y_true : List ℕ) (y_pred_prob : List (ℚ × ℚ)) (threshold : ℚ) :
    calculate_metrics y_true y_pred_prob threshold
      = metricsFromPred y_true (y_pred_prob.map (fun p => if threshold < p.2 then 1 else 0))
          (y_pred_prob.map Prod.snd)
    ∧ defaultThreshold = 1 / 2
    ∧ calculate_metricsDefault y_true y_pred_prob = calculate_metrics y_true y_pred_prob (1 / 2) :=
  ⟨rfl, rfl, rfl⟩

/-- C9: a sample whose positive-class probability equals the threshold is
classified as negative (predicted label 0), because the binarization of
`calculate_metrics` compares with a strict greater-than. -/
theorem C9_tie_is_negative (y_pred_prob : List (ℚ × ℚ)) (threshold : ℚ) (i : ℕ)
    (h : i < y_pred_prob.length) (heq : (y_pred_prob.get ⟨i, h⟩).2 = threshold) :
    (binarize y_pred_prob threshold).getD i 1 = 0 := by
  have hlen : i < (binarize y_pred_prob threshold).length := by simpa [binarize] using h
  rw [List.getD_eq_getElem _ _ hlen]
  simp only [binarize, List.getElem_map]
  have hget : y_pred_prob[i] = y_pred_prob.get ⟨i, h⟩ := rfl
  rw [hget, heq]
  simp

/-- Witness for C9 at a concrete tie: probability exactly 1/2 against
threshold 1/2 is classified 0. -/
theorem C9_tie_is_negative_witness :
    (binarize [((0 : ℚ), (1 : ℚ) / 2)] ((1 : ℚ) / 2)).getD 0 1 = 0 :=
  C9_tie_is_negative [((0 : ℚ), (1 : ℚ) / 2)] ((1 : ℚ) / 2) 0 (by decide) rfl

/-- C10: the metrics record depends only on the true labels and the second
(positive-class) probability column: two inputs with equal second columns
give identical results whatever their first columns hold. -/
theorem C10_second_column_only (y_true : List ℕ) (p1 p2 : List (ℚ × ℚ)) (threshold : ℚ)
    (h : p1.map Prod.snd = p2.map Prod.snd) :
    calculate_metrics y_true p1 threshold = calculate_metrics y_true p2 threshold := by
  unfold calculate_metrics
  rw [binarize_eq_map_snd, binarize_eq_map_snd, h]

/-- Witness for C10: two probability matrices differing only in the first
column produce the same metrics value. -/
theorem C10_second_column_only_witness :
    calculate_metrics [0, 1] [((0 : ℚ), 1), ((1 : ℚ), 0)] ((1 : ℚ) / 2)
      = calculate_metrics [0, 1] [((1 : ℚ) / 3, 1), ((2 : ℚ) / 3, 0)] ((1 : ℚ) / 2) :=
  C10_second_column_only [0, 1] [((0 : ℚ), 1), ((1 : ℚ), 0)] [((1 : ℚ) / 3, 1), ((2 : ℚ) / 3, 0)]
    ((1 : ℚ) / 2) rfl

lemma countP_disjoint_union {α : Type} (P Q R : α → Bool) (L : List α)
    (h : ∀ x ∈ L, R x = (P x || Q x) ∧ ¬(P x = true ∧ Q x = true)) :
    L.countP R = L.countP P + L.countP Q := by
  induction L with
  | nil => rfl
  | cons a L ih =>
    have ha := h a (List.mem_cons_self a L)
    have hL := ih (fun x hx => h x (List.mem_cons_of_mem a hx))
    simp only [List.countP_cons, hL]
    cases hP : P a <;> cases hQ : Q a
    · rw [ha.1, hP, hQ]; simp
    · rw [ha.1, hP, hQ]; simp; omega
    · rw [ha.1, hP, hQ]; simp; omega
    · exact absurd ⟨hP, hQ⟩ ha.2

lemma pairCount_eq_zero_of_fst {y p : List ℕ} {a b : ℕ} (h : ∀ x ∈ y, x ≠ a) :
    pairCount y p a b = 0 := by
  unfold pairCount
  rw [List.countP_eq_zero]
  intro q hq
  have h1 := (List.of_mem_zip hq).1
  simp only [Bool.and_eq_true, beq_iff_eq, not_and]
  intro hqa
  exact absurd hqa (h q.1 h1)

lemma countP_eq_tn_tp (y p : List ℕ) (hby : ∀ x ∈ y, x = 0 ∨ x = 1)
    (hbp : ∀ x ∈ p, x = 0 ∨ x = 1) :
    (y.zip p).countP (fun q => q.1 == q.2) = tnOf y p + tpOf y p := by
  unfold tnOf tpOf pairCount
  apply countP_disjoint_union
  intro q hq
  obtain ⟨a, b⟩ := q
  obtain ⟨ha, hb⟩ := List.of_mem_zip hq
  rcases hby a ha with rfl | rfl <;> rcases hbp b hb with rfl | rfl <;>
    exact ⟨by decide, by decide⟩

lemma countP_fst_one_split (y p : List ℕ) (hbp : ∀ x ∈ p, x = 0 ∨ x = 1) :
    (y.zip p).countP (fun q => q.1 == 1) = fnOf y p + tpOf y p := by
  unfold fnOf tpOf pairCount
  apply countP_disjoint_union
  intro q hq
  obtain ⟨a, b⟩ := q
  obtain ⟨_, hb⟩ := List.of_mem_zip hq
  rcases hbp b hb with rfl | rfl <;> constructor <;> simp

lemma countP_fst_zero_split (y p : List ℕ) (hbp : ∀ x ∈ p, x = 0 ∨ x = 1) :
    (y.zip p).countP (fun q => q.1 == 0) = tnOf y p + fpOf y p := by
  unfold tnOf fpOf pairCount
  apply countP_disjoint_union
  intro q hq
  obtain ⟨a, b⟩ := q
  obtain ⟨_, hb⟩ := List.of_mem_zip hq
  rcases hbp b hb with rfl | rfl <;> constructor <;> simp

lemma zip_length_counts (y p : List ℕ) (hby : ∀ x ∈ y, x = 0 ∨ x = 1)
    (hbp : ∀ x ∈ p, x = 0 ∨ x = 1) :
    (y.zip p).length = (tnOf y p + fpOf y p) + (fnOf y p + tpOf y p) := by
  have h2 : (y.zip p).countP (fun _ => true)
      = (y.zip p).countP (fun q => q.1 == 0) + (y.zip p).countP (fun q => q.1 == 1) := by
    apply countP_disjoint_union
    intro q hq
    obtain ⟨a, b⟩ := q
    obtain ⟨ha, _⟩ := List.of_mem_zip hq
    rcases hby a ha with rfl | rfl <;> exact ⟨by simp, by simp⟩
  rw [← List.countP_true, h2, countP_fst_zero_split y p hbp, countP_fst_one_split y p hbp]

lemma exists_mem_zip_left {β : Type} {y : List ℕ} {s : List β} {a : ℕ} (ha : a ∈ y)
    (hlen : y.length = s.length) : ∃ w, (a, w) ∈ y.zip s := by
  induction y generalizing s with
  | nil => cases ha
  | cons b y ih =>
    cases s with
    | nil => simp at hlen
    | cons w s =>
      rcases List.mem_cons.mp ha with rfl | ha2
      · exact ⟨w, by simp⟩
      · rcases ih ha2 (by simpa using hlen) with ⟨w2, hw2⟩
        exact ⟨w2, by simp [List.zip_cons_cons, hw2]⟩

lemma rocAucScore_error_of_no_pos (y : List ℕ) (s : List ℚ)
    (hbin : ∀ l ∈ y, l = 0 ∨ l = 1) (h1 : 1 ∉ y) :
    rocAucScore y s
      = Except.error "Only one class present in y_true. ROC AUC score is not defined in that case." := by
  unfold rocAucScore
  rw [if_neg, if_pos]
  · have hnil : (y.zip s).filter (fun q => q.1 == 1) = [] := by
      rw [List.filter_eq_nil_iff]
      intro q hq
      simp only [beq_iff_eq]
      intro hq1
      exact h1 (hq1 ▸ (List.of_mem_zip hq).1)
    simp [posScores, hnil]
  · simp only [List.any_eq_true]
    rintro ⟨l, hl, hbad⟩
    rcases hbin l hl with rfl | rfl <;> simp at hbad

lemma rocAucScore_error_of_no_neg (y : List ℕ) (s : List ℚ)
    (hbin : ∀ l ∈ y, l = 0 ∨ l = 1) (h0 : 0 ∉ y) :
    rocAucScore y s
      = Except.error "Only one class present in y_true. ROC AUC score is not defined in that case." := by
  unfold rocAucScore
  rw [if_neg, if_pos]
  · have hnil : (y.zip s).filter (fun q => q.1 == 0) = [] := by
      rw [List.filter_eq_nil_iff]
      intro q hq
      simp only [beq_iff_eq]
      intro hq0
      exact h0 (hq0 ▸ (List.of_mem_zip hq).1)
    simp [negScores, hnil]
  · simp only [List.any_eq_true]
    rintro ⟨l, hl, hbad⟩
    rcases hbin l hl with rfl | rfl <;> simp at hbad

lemma rocAucScore_ok {y : List ℕ} {s : List ℚ}
    (hbin : ∀ l ∈ y, l = 0 ∨ l = 1) (h0 : 0 ∈ y) (h1 : 1 ∈ y)
    (hlen : y.length = s.length) : ∃ v, rocAucScore y s = Except.ok v := by
  unfold rocAucScore
  rw [if_neg, if_neg]
  · exact ⟨_, rfl⟩
  · rcases exists_mem_zip_left h1 hlen with ⟨w1, hw1⟩
    rcases exists_mem_zip_left h0 hlen with ⟨w0, hw0⟩
    have hpos : w1 ∈ posScores y s := by
      unfold posScores
      exact List.mem_map.mpr ⟨(1, w1), List.mem_filter.mpr ⟨hw1, by simp⟩, rfl⟩
    have hneg : w0 ∈ negScores y s := by
      unfold negScores
      exact List.mem_map.mpr ⟨(0, w0), List.mem_filter.mpr ⟨hw0, by simp⟩, rfl⟩
    simp [List.isEmpty_iff, List.ne_nil_of_mem hpos, List.ne_nil_of_mem hneg]
  · simp only [List.any_eq_true]
    rintro ⟨l, hl, hbad⟩
    rcases hbin l hl with rfl | rfl <;> simp at hbad

lemma metricsFromPred_error_of_roc {y p : List ℕ} {s : List ℚ} {e : String}
    (h : rocAucScore y s = Except.error e) :
    ∃ msg, metricsFromPred y p s = Except.error msg := by
  unfold metricsFromPred
  split_ifs with hlen
  · exact ⟨_, rfl⟩
  · rcases hcm : cmRavel y p with _ | ⟨a, _ | ⟨b, _ | ⟨c, _ | ⟨d, _ | ⟨e2, rest⟩⟩⟩⟩⟩
    · exact ⟨_, rfl⟩
    · exact ⟨_, rfl⟩
    · exact ⟨_, rfl⟩
    · exact ⟨_, rfl⟩
    · rw [h]
      exact ⟨e, rfl⟩
    · exact ⟨_, rfl⟩

lemma foldr_max_le {l : List ℕ} {b : ℕ} (h : ∀ x ∈ l, x ≤ b) : l.foldr max 0 ≤ b := by
  induction l with
  | nil => exact Nat.zero_le b
  | cons a l ih =>
    simp only [List.foldr_cons]
    exact max_le (h a (List.mem_cons_self a l)) (ih (fun x hx => h x (List.mem_cons_of_mem a hx)))

lemma le_foldr_max {l : List ℕ} {x : ℕ} (h : x ∈ l) : x ≤ l.foldr max 0 := by
  induction l with
  | nil => cases h
  | cons a l ih =>
    rcases List.mem_cons.mp h with rfl | hx
    · exact le_max_left _ _
    · exact le_trans (ih hx) (le_max_right _ _)

lemma uniqueLabels_binary {zs : List ℕ} (hbin : ∀ x ∈ zs, x = 0 ∨ x = 1)
    (h0 : 0 ∈ zs) (h1 : 1 ∈ zs) : uniqueLabels zs = [0, 1] := by
  have hmax : zs.foldr max 0 = 1 :=
    le_antisymm (foldr_max_le (fun x hx => by rcases hbin x hx with rfl | rfl <;> omega))
      (le_foldr_max h1)
  unfold uniqueLabels
  rw [hmax]
  show (List.range 2).filter _ = [0, 1]
  rw [show List.range 2 = [0, 1] from rfl]
  simp [List.filter_cons, h0, h1]

lemma cmRavel_binary {y p : List ℕ} (hu : uniqueLabels (y ++ p) = [0, 1]) :
    cmRavel y p = [tnOf y p, fpOf y p, fnOf y p, tpOf y p] := by
  unfold cmRavel
  rw [hu]
  rfl

/-- C1 (amended): on a degenerate input whose true labels are all one class,
the guarded sensitivity and specificity expressions do evaluate to the
sentinel 0 without any division (the guard takes the else branch), but
`calculate_metrics` as a whole never returns a record there: it raises a
(non-division) `ValueError`, either from the four-way confusion-matrix
unpacking (when the predictions are single-class too) or from
`roc_auc_score` (one class present in y_true); symmetrically for
all-positive labels. -/
theorem C1_degenerate_amended (y_true : List ℕ) (y_pred_prob : List (ℚ × ℚ)) (threshold : ℚ)
    (hlen : y_true.length = y_pred_prob.length)
    (hdeg : (∀ l ∈ y_true, l = 0) ∨ (∀ l ∈ y_true, l = 1)) :
    (∃ msg, calculate_metrics y_true y_pred_prob threshold = Except.error msg)
    ∧ ((∀ l ∈ y_true, l = 0) →
        guardedDiv (tpOf y_true (binarize y_pred_prob threshold))
          (tpOf y_true (binarize y_pred_prob threshold)
            + fnOf y_true (binarize y_pred_prob threshold)) = 0)
    ∧ ((∀ l ∈ y_true, l = 1) →
        guardedDiv (tnOf y_true (binarize y_pred_prob threshold))
          (tnOf y_true (binarize y_pred_prob threshold)
            + fpOf y_true (binarize y_pred_prob threshold)) = 0) := by
  refine ⟨?_, ?_, ?_⟩
  · unfold calculate_metrics
    rcases hdeg with h | h
    · exact metricsFromPred_error_of_roc
        (rocAucScore_error_of_no_pos _ _ (fun l hl => Or.inl (h l hl))
          (fun h1 => absurd (h 1 h1) one_ne_zero))
    · exact metricsFromPred_error_of_roc
        (rocAucScore_error_of_no_neg _ _ (fun l hl => Or.inr (h l hl))
          (fun h0 => absurd (h 0 h0) zero_ne_one))
  · intro h
    have htp : tpOf y_true (binarize y_pred_prob threshold) = 0 :=
      pairCount_eq_zero_of_fst (fun x hx => by rw [h x hx]; exact zero_ne_one)
    have hfn : fnOf y_true (binarize y_pred_prob threshold) = 0 :=
      pairCount_eq_zero_of_fst (fun x hx => by rw [h x hx]; exact zero_ne_one)
    rw [htp, hfn]
    simp [guardedDiv]
  · intro h
    have htn : tnOf y_true (binarize y_pred_prob threshold) = 0 :=
      pairCount_eq_zero_of_fst (fun x hx => by rw [h x hx]; exact one_ne_zero)
    have hfp : fpOf y_true (binarize y_pred_prob threshold) = 0 :=
      pairCount_eq_zero_of_fst (fun x hx => by rw [h x hx]; exact one_ne_zero)
    rw [htn, hfp]
    simp [guardedDiv]

/-- Witness for the amended C1 at a concrete all-negative input. -/
theorem C1_degenerate_amended_witness :
    (∃ msg, calculate_metrics [0, 0] [((1 : ℚ)/2, (3 : ℚ)/4), ((3 : ℚ)/4, (1 : ℚ)/2)] ((1 : ℚ)/2)
        = Except.error msg)
    ∧ ((∀ l ∈ [0, 0], l = 0) →
        guardedDiv (tpOf [0, 0] (binarize [((1 : ℚ)/2, (3 : ℚ)/4), ((3 : ℚ)/4, (1 : ℚ)/2)] ((1 : ℚ)/2)))
          (tpOf [0, 0] (binarize [((1 : ℚ)/2, (3 : ℚ)/4), ((3 : ℚ)/4, (1 : ℚ)/2)] ((1 : ℚ)/2))
            + fnOf [0, 0] (binarize [((1 : ℚ)/2, (3 : ℚ)/4), ((3 : ℚ)/4, (1 : ℚ)/2)] ((1 : ℚ)/2))) = 0)
    ∧ ((∀ l ∈ [0, 0], l = 1) →
        guardedDiv (tnOf [0, 0] (binarize [((1 : ℚ)/2, (3 : ℚ)/4), ((3 : ℚ)/4, (1 : ℚ)/2)] ((1 : ℚ)/2)))
          (tnOf [0, 0] (binarize [((1 : ℚ)/2, (3 : ℚ)/4), ((3 : ℚ)/4, (1 : ℚ)/2)] ((1 : ℚ)/2))
            + fpOf [0, 0] (binarize [((1 : ℚ)/2, (3 : ℚ)/4), ((3 : ℚ)/4, (1 : ℚ)/2)] ((1 : ℚ)/2))) = 0) :=
  C1_degenerate_amended [0, 0] [((1 : ℚ)/2, (3 : ℚ)/4), ((3 : ℚ)/4, (1 : ℚ)/2)] ((1 : ℚ)/2)
    rfl (Or.inl (by decide))

/-- Counterexample to C1 as stated: on the all-negative input
`y_true = [0, 0]` (equal-length probabilities, labels binary),
`calculate_metrics` does not return any record with sensitivity 0 - it
raises the single-class `ValueError` of `roc_auc_score`. -/
theorem C1_counterexample :
    calculate_metrics [0, 0] [((1 : ℚ)/2, (3 : ℚ)/4), ((3 : ℚ)/4, (1 : ℚ)/2)] ((1 : ℚ)/2)
      = Except.error "Only one class present in y_true. ROC AUC score is not defined in that case." := by
  have hb : binarize [((1 : ℚ)/2, (3 : ℚ)/4), ((3 : ℚ)/4, (1 : ℚ)/2)] ((1 : ℚ)/2) = [1, 0] := by
    norm_num [binarize]
  have hroc : rocAucScore [0, 0]
      (List.map Prod.snd [((1 : ℚ)/2, (3 : ℚ)/4), ((3 : ℚ)/4, (1 : ℚ)/2)])
      = Except.error "Only one class present in y_true. ROC AUC score is not defined in that case." :=
    rocAucScore_error_of_no_pos _ _ (by decide) (by decide)
  unfold calculate_metrics metricsFromPred
  rw [hb]
  have hcm : cmRavel [0, 0] [1, 0] = [1, 1, 0, 0] := by decide
  rw [if_neg (by decide), hcm, hroc]

/-- C2: on equal-length binary inputs with every true class and every
predicted class represented, `calculate_metrics` succeeds, and its
accuracy, sensitivity and specificity are exactly the confusion-matrix
formulas (tp+tn)/(tp+tn+fp+fn), tp/(tp+fn) and tn/(tn+fp) over the 2x2
confusion matrix of the (true, predicted) pairs. -/
theorem C2_confusion_matrix_metrics (y_true : List ℕ) (y_pred_prob : List (ℚ × ℚ)) (threshold : ℚ)
    (hlen : y_true.length = y_pred_prob.length)
    (hbin : ∀ l ∈ y_true, l = 0 ∨ l = 1)
    (h0 : 0 ∈ y_true) (h1 : 1 ∈ y_true)
    (hp0 : 0 ∈ binarize y_pred_prob threshold) (hp1 : 1 ∈ binarize y_pred_prob threshold) :
    ∃ auc, calculate_metrics y_true y_pred_prob threshold
      = Except.ok
          ⟨((tpOf y_true (binarize y_pred_prob threshold)
              + tnOf y_true (binarize y_pred_prob threshold) : ℕ) : ℚ)
            / ((tpOf y_true (binarize y_pred_prob threshold)
              + tnOf y_true (binarize y_pred_prob threshold)
              + fpOf y_true (binarize y_pred_prob threshold)
              + fnOf y_true (binarize y_pred_prob threshold) : ℕ) : ℚ),
           ((tpOf y_true (binarize y_pred_prob threshold) : ℕ) : ℚ)
            / ((tpOf y_true (binarize y_pred_prob threshold)
              + fnOf y_true (binarize y_pred_prob threshold) : ℕ) : ℚ),
           ((tnOf y_true (binarize y_pred_prob threshold) : ℕ) : ℚ)
            / ((tnOf y_true (binarize y_pred_prob threshold)
              + fpOf y_true (binarize y_pred_prob threshold) : ℕ) : ℚ),
           auc⟩ := by
  have hbp : ∀ x ∈ binarize y_pred_prob threshold, x = 0 ∨ x = 1 :=
    fun x hx => binarize_mem hx
  have hpl : y_true.length = (binarize y_pred_prob threshold).length := by
    rw [binarize_length]; exact hlen
  have hu : uniqueLabels (y_true ++ binarize y_pred_prob threshold) = [0, 1] := by
    apply uniqueLabels_binary
    · intro x hx
      rcases List.mem_append.mp hx with hx | hx
      · exact hbin x hx
      · exact hbp x hx
    · exact List.mem_append.mpr (Or.inl h0)
    · exact List.mem_append.mpr (Or.inl h1)
  have hcm := cmRavel_binary hu
  have hscoreslen : y_true.length = (y_pred_prob.map Prod.snd).length := by
    rw [List.length_map]; exact hlen
  rcases rocAucScore_ok hbin h0 h1 hscoreslen with ⟨v, hv⟩
  have hzl : (y_true.zip (binarize y_pred_prob threshold)).length = y_true.length := by
    rw [List.length_zip, ← hpl]
    exact min_self _
  have hmatch := countP_eq_tn_tp y_true (binarize y_pred_prob threshold) hbin hbp
  have hlen4 : y_true.length
      = (tnOf y_true (binarize y_pred_prob threshold) + fpOf y_true (binarize y_pred_prob threshold))
        + (fnOf y_true (binarize y_pred_prob threshold) + tpOf y_true (binarize y_pred_prob threshold)) := by
    rw [← hzl]
    exact zip_length_counts _ _ hbin hbp
  have hsenspos : 0 < tpOf y_true (binarize y_pred_prob threshold)
      + fnOf y_true (binarize y_pred_prob threshold) := by
    rcases exists_mem_zip_left h1 hpl with ⟨w, hw⟩
    have : 0 < (y_true.zip (binarize y_pred_prob threshold)).countP (fun q => q.1 == 1) :=
      List.countP_pos_iff.mpr ⟨(1, w), hw, by simp⟩
    rw [countP_fst_one_split _ _ hbp] at this
    omega
  have hspecpos : 0 < tnOf y_true (binarize y_pred_prob threshold)
      + fpOf y_true (binarize y_pred_prob threshold) := by
    rcases exists_mem_zip_left h0 hpl with ⟨w, hw⟩
    have : 0 < (y_true.zip (binarize y_pred_prob threshold)).countP (fun q => q.1 == 0) :=
      List.countP_pos_iff.mpr ⟨(0, w), hw, by simp⟩
    rw [countP_fst_zero_split _ _ hbp] at this
    omega
  refine ⟨v, ?_⟩
  unfold calculate_metrics metricsFromPred
  rw [if_neg (not_ne_iff.mpr hpl), hcm, hv]
  simp only [Except.ok.injEq, MetricsRecord.mk.injEq]
  refine ⟨?_, ?_, ?_, trivial⟩
  · rw [hmatch, hlen4]
    push_cast
    ring
  · unfold guardedDiv
    rw [if_pos hsenspos]
  · unfold guardedDiv
    rw [if_pos hspecpos]

/-- Witness for C2 at a concrete mixed input: true labels [0, 1],
predictions [0, 1]; the confusion matrix is tn=1, fp=0, fn=0, tp=1. -/
theorem C2_confusion_matrix_metrics_witness :
    ∃ auc, calculate_metrics [0, 1] [((3 : ℚ)/4, (1 : ℚ)/4), ((1 : ℚ)/4, (3 : ℚ)/4)] ((1 : ℚ)/2)
      = Except.ok
          ⟨((tpOf [0, 1] (binarize [((3 : ℚ)/4, (1 : ℚ)/4), ((1 : ℚ)/4, (3 : ℚ)/4)] ((1 : ℚ)/2))
              + tnOf [0, 1] (binarize [((3 : ℚ)/4, (1 : ℚ)/4), ((1 : ℚ)/4, (3 : ℚ)/4)] ((1 : ℚ)/2)) : ℕ) : ℚ)
            / ((tpOf [0, 1] (binarize [((3 : ℚ)/4, (1 : ℚ)/4), ((1 : ℚ)/4, (3 : ℚ)/4)] ((1 : ℚ)/2))
              + tnOf [0, 1] (binarize [((3 : ℚ)/4, (1 : ℚ)/4), ((1 : ℚ)/4, (3 : ℚ)/4)] ((1 : ℚ)/2))
              + fpOf [0, 1] (binarize [((3 : ℚ)/4, (1 : ℚ)/4), ((1 : ℚ)/4, (3 : ℚ)/4)] ((1 : ℚ)/2))
              + fnOf [0, 1] (binarize [((3 : ℚ)/4, (1 : ℚ)/4), ((1 : ℚ)/4, (3 : ℚ)/4)] ((1 : ℚ)/2)) : ℕ) : ℚ),
           ((tpOf [0, 1] (binarize [((3 : ℚ)/4, (1 : ℚ)/4), ((1 : ℚ)/4, (3 : ℚ)/4)] ((1 : ℚ)/2)) : ℕ) : ℚ)
            / ((tpOf [0, 1] (binarize [((3 : ℚ)/4, (1 : ℚ)/4), ((1 : ℚ)/4, (3 : ℚ)/4)] ((1 : ℚ)/2))
              + fnOf [0, 1] (binarize [((3 : ℚ)/4, (1 : ℚ)/4), ((1 : ℚ)/4, (3 : ℚ)/4)] ((1 : ℚ)/2)) : ℕ) : ℚ),
           ((tnOf [0, 1] (binarize [((3 : ℚ)/4, (1 : ℚ)/4), ((1 : ℚ)/4, (3 : ℚ)/4)] ((1 : ℚ)/2)) : ℕ) : ℚ)
            / ((tnOf [0, 1] (binarize [((3 : ℚ)/4, (1 : ℚ)/4), ((1 : ℚ)/4, (3 : ℚ)/4)] ((1 : ℚ)/2))
              + fpOf [0, 1] (binarize [((3 : ℚ)/4, (1 : ℚ)/4), ((1 : ℚ)/4, (3 : ℚ)/4)] ((1 : ℚ)/2)) : ℕ) : ℚ),
           auc⟩ :=
  C2_confusion_matrix_metrics [0, 1] [((3 : ℚ)/4, (1 : ℚ)/4), ((1 : ℚ)/4, (3 : ℚ)/4)] ((1 : ℚ)/2)
    rfl (by decide) (by decide) (by decide)
    (by norm_num [binarize]) (by norm_num [binarize])

lemma pseudoShuffle_length (seed : ℕ) (l : List ℕ) :
    (pseudoShuffle seed l).length = l.length := by
  simp [pseudoShuffle]

lemma pseudoShuffle_mem {x seed : ℕ} {l : List ℕ} (h : x ∈ pseudoShuffle seed l) : x ∈ l := by
  unfold pseudoShuffle at h
  exact List.mem_rotate.mp h

lemma foldsForClassRaw_length (labels : List ℕ) (k c : ℕ) :
    (foldsForClassRaw labels k c).length = labels.count c := by
  simp [foldsForClassRaw]

lemma foldsForClassRaw_mem_lt {labels : List ℕ} {k c x : ℕ} (hk : 0 < k)
    (h : x ∈ foldsForClassRaw labels k c) : x < k := by
  rcases List.mem_map.mp h with ⟨t, _, rfl⟩
  exact Nat.mod_lt _ hk

lemma count_take_lt {labels : List ℕ} {idx : ℕ} (h : idx < labels.length) :
    (labels.take idx).count (labels.getD idx 0) < labels.count (labels.getD idx 0) := by
  have hsplit := List.take_append_drop idx labels
  have hdropmem : labels.getD idx 0 ∈ labels.drop idx := by
    rw [List.drop_eq_getElem_cons h, List.getD_eq_getElem _ _ h]
    exact List.mem_cons_self _ _
  have hdpos : 0 < (labels.drop idx).count (labels.getD idx 0) :=
    List.count_pos_iff.mpr hdropmem
  have hca := List.count_append (labels.getD idx 0) (labels.take idx) (labels.drop idx)
  rw [hsplit] at hca
  omega

lemma testFoldOf_lt {labels : List ℕ} {k seed idx : ℕ} (hk : 0 < k)
    (h : idx < labels.length) : testFoldOf labels k seed idx < k := by
  unfold testFoldOf foldsForClass
  have hrank := count_take_lt h
  have hlen2 : (labels.take idx).count (labels.getD idx 0)
      < (pseudoShuffle (seed + labels.getD idx 0)
          (foldsForClassRaw labels k (labels.getD idx 0))).length := by
    rw [pseudoShuffle_length, foldsForClassRaw_length]
    exact hrank
  rw [List.getD_eq_getElem _ _ hlen2]
  exact foldsForClassRaw_mem_lt hk (pseudoShuffle_mem (List.getElem_mem _))

/-- C5: whenever the splitter produces folds at all, it produces exactly
`k` of them, their test-index sets are pairwise disjoint and cover the
full index set exactly once, and within each fold the train and test index
sets are disjoint with union the full index set. -/
theorem C5_splitter_partition (labels : List ℕ) (k seed : ℕ)
    (folds : List (List ℕ × List ℕ)) (hok : skfSplit labels k seed = Except.ok folds) :
    folds.length = k
    ∧ (∀ i j (hi : i < folds.length) (hj : j < folds.length), i ≠ j →
        ∀ x ∈ (folds.get ⟨i, hi⟩).2, x ∉ (folds.get ⟨j, hj⟩).2)
    ∧ (∀ x, (∃ f ∈ folds, x ∈ f.2) ↔ x < labels.length)
    ∧ (∀ f ∈ folds, (∀ x ∈ f.1, x ∉ f.2)
        ∧ (∀ x, (x ∈ f.1 ∨ x ∈ f.2) ↔ x < labels.length)) := by
  unfold skfSplit at hok
  split_ifs at hok with h1 h2 h3
  injection hok with h4
  subst h4
  have hk0 : 0 < k := by omega
  refine ⟨by simp, ?_, ?_, ?_⟩
  · intro i j hi hj hne x hxi hxj
    rw [List.get_map, List.get_range] at hxi hxj
    have hco1 := (List.mem_filter.mp hxi).2
    have hco2 := (List.mem_filter.mp hxj).2
    simp only [beq_iff_eq] at hco1 hco2
    exact hne (hco1 ▸ hco2.symm ▸ rfl)
  · intro x
    constructor
    · rintro ⟨f, hf, hxf⟩
      rcases List.mem_map.mp hf with ⟨i, _, rfl⟩
      exact List.mem_range.mp (List.mem_filter.mp hxf).1
    · intro hx
      refine ⟨((List.range labels.length).filter
          (fun idx => !(testFoldOf labels k seed idx == testFoldOf labels k seed x)),
        (List.range labels.length).filter
          (fun idx => testFoldOf labels k seed idx == testFoldOf labels k seed x)), ?_, ?_⟩
      · exact List.mem_map.mpr
          ⟨testFoldOf labels k seed x, List.mem_range.mpr (testFoldOf_lt hk0 hx), rfl⟩
      · exact List.mem_filter.mpr ⟨List.mem_range.mpr hx, by simp⟩
  · intro f hf
    rcases List.mem_map.mp hf with ⟨i, _, rfl⟩
    constructor
    · intro x hx1 hx2
      have hb1 := (List.mem_filter.mp hx1).2
      have hb2 := (List.mem_filter.mp hx2).2
      rw [hb2] at hb1
      simp at hb1
    · intro x
      constructor
      · rintro (hx | hx) <;> exact List.mem_range.mp (List.mem_filter.mp hx).1
      · intro hx
        by_cases htf : testFoldOf labels k seed x = i
        · exact Or.inr (List.mem_filter.mpr ⟨List.mem_range.mpr hx, by simp [htf]⟩)
        · exact Or.inl (List.mem_filter.mpr ⟨List.mem_range.mpr hx, by simp [htf]⟩)

/-- Witness for C5 at labels [0, 0, 1, 1], k = 2, the harness's seed 42:
the splitter returns the two folds ([1, 2], [0, 3]) and ([0, 3], [1, 2]). -/
theorem C5_splitter_partition_witness :
    ([([1, 2], [0, 3]), ([0, 3], [1, 2])] : List (List ℕ × List ℕ)).length = 2
    ∧ (∀ i j (hi : i < ([([1, 2], [0, 3]), ([0, 3], [1, 2])] : List (List ℕ × List ℕ)).length)
        (hj : j < ([([1, 2], [0, 3]), ([0, 3], [1, 2])] : List (List ℕ × List ℕ)).length), i ≠ j →
        ∀ x ∈ (([([1, 2], [0, 3]), ([0, 3], [1, 2])] : List (List ℕ × List ℕ)).get ⟨i, hi⟩).2,
          x ∉ (([([1, 2], [0, 3]), ([0, 3], [1, 2])] : List (List ℕ × List ℕ)).get ⟨j, hj⟩).2)
    ∧ (∀ x, (∃ f ∈ ([([1, 2], [0, 3]), ([0, 3], [1, 2])] : List (List ℕ × List ℕ)), x ∈ f.2)
        ↔ x < ([0, 0, 1, 1] : List ℕ).length)
    ∧ (∀ f ∈ ([([1, 2], [0, 3]), ([0, 3], [1, 2])] : List (List ℕ × List ℕ)),
        (∀ x ∈ f.1, x ∉ f.2)
        ∧ (∀ x, (x ∈ f.1 ∨ x ∈ f.2) ↔ x < ([0, 0, 1, 1] : List ℕ).length)) :=
  C5_splitter_partition [0, 0, 1, 1] 2 42 [([1, 2], [0, 3]), ([0, 3], [1, 2])] rfl

lemma get_model_ok_untrained {m : String} {mdl : KModel}
    (h : get_model m = Except.ok mdl) : mdl = KModel.untrained m := by
  unfold get_model at h
  split_ifs at h with h1 h2 h3 h4 h5
  · injection h with h6; subst h1; exact h6.symm
  · injection h with h6; subst h2; exact h6.symm
  · injection h with h6; subst h3; exact h6.symm
  · injection h with h6; subst h4; exact h6.symm
  · injection h with h6; subst h5; exact h6.symm

lemma evalFold_fst {α : Type} [Inhabited α] (tf : KModel → List α × List ℕ → KModel)
    (pf : KModel → List α → List (ℚ × ℚ)) (images : List α) (labels : List ℕ)
    (m : String) (f : ℕ) (tr te : List ℕ) (ev : TrainEvent)
    (hev : (evalFold tf pf images labels m f tr te).1 = some ev) :
    get_model m = Except.ok ev.modelArg
    ∧ ev = ⟨m, f, KModel.untrained m, tr, te⟩ := by
  unfold evalFold at hev
  cases hgm : get_model m with
  | error e => rw [hgm] at hev; simp at hev
  | ok mdl =>
    rw [hgm] at hev
    have hmdl := get_model_ok_untrained hgm
    subst hmdl
    have hev2 : (⟨m, f, KModel.untrained m, tr, te⟩ : TrainEvent) = ev := by
      simpa using hev
    subst hev2
    exact ⟨rfl, rfl⟩

lemma evalFold_ok_fst {α : Type} [Inhabited α] (tf : KModel → List α × List ℕ → KModel)
    (pf : KModel → List α → List (ℚ × ℚ)) (images : List α) (labels : List ℕ)
    (m : String) (f : ℕ) (tr te : List ℕ) (r : FoldRecord)
    (h : (evalFold tf pf images labels m f tr te).2 = Except.ok r) :
    (evalFold tf pf images labels m f tr te).1
      = some ⟨m, f, KModel.untrained m, tr, te⟩ := by
  unfold evalFold at h ⊢
  cases hgm : get_model m with
  | error e => rw [hgm] at h; simp at h
  | ok mdl =>
    have hmdl := get_model_ok_untrained hgm
    subst hmdl
    rfl

lemma evalFold_ok_get_model {α : Type} [Inhabited α] (tf : KModel → List α × List ℕ → KModel)
    (pf : KModel → List α → List (ℚ × ℚ)) (images : List α) (labels : List ℕ)
    (m : String) (f : ℕ) (tr te : List ℕ) (r : FoldRecord)
    (h : (evalFold tf pf images labels m f tr te).2 = Except.ok r) :
    ∃ mdl, get_model m = Except.ok mdl := by
  unfold evalFold at h
  cases hgm : get_model m with
  | error e => rw [hgm] at h; simp at h
  | ok mdl => exact ⟨mdl, rfl⟩

lemma evalFold_unsupported {α : Type} [Inhabited α] (tf : KModel → List α × List ℕ → KModel)
    (pf : KModel → List α → List (ℚ × ℚ)) (images : List α) (labels : List ℕ)
    (m : String) (f : ℕ) (tr te : List ℕ) (e : String)
    (hgm : get_model m = Except.error e) :
    evalFold tf pf images labels m f tr te = (none, Except.error e) := by
  unfold evalFold
  rw [hgm]

lemma evalFolds_events {α : Type} [Inhabited α] (tf : KModel → List α × List ℕ → KModel)
    (pf : KModel → List α → List (ℚ × ℚ)) (images : List α) (labels : List ℕ)
    (m : String) (L : List (ℕ × (List ℕ × List ℕ))) :
    ∀ ev ∈ (evalFolds tf pf images labels m L).1,
      ev.modelName = m ∧ get_model m = Except.ok ev.modelArg := by
  induction L with
  | nil => intro ev hev; simp [evalFolds] at hev
  | cons hd rest ih =>
    obtain ⟨f, tr, te⟩ := hd
    intro ev hev
    cases hf : evalFold tf pf images labels m f tr te with
    | mk oev res =>
      cases res with
      | error e =>
        simp only [evalFolds, hf] at hev
        cases oev with
        | none => simp at hev
        | some ev0 =>
          simp at hev
          subst hev
          rcases evalFold_fst tf pf images labels m f tr te ev (by simp [hf]) with ⟨hg, hstruct⟩
          exact ⟨by rw [hstruct], hg⟩
      | ok r =>
        cases hrec : evalFolds tf pf images labels m rest with
        | mk evs res2 =>
          cases res2 with
          | error e =>
            simp only [evalFolds, hf, hrec] at hev
            rcases List.mem_append.mp hev with hev1 | hev2
            · cases oev with
              | none => simp at hev1
              | some ev0 =>
                simp at hev1
                subst hev1
                rcases evalFold_fst tf pf images labels m f tr te ev (by simp [hf]) with ⟨hg, hstruct⟩
                exact ⟨by rw [hstruct], hg⟩
            · have := ih ev
              rw [hrec] at this
              exact this hev2
          | ok rs =>
            simp only [evalFolds, hf, hrec] at hev
            rcases List.mem_append.mp hev with hev1 | hev2
            · cases oev with
              | none => simp at hev1
              | some ev0 =>
                simp at hev1
                subst hev1
                rcases evalFold_fst tf pf images labels m f tr te ev (by simp [hf]) with ⟨hg, hstruct⟩
                exact ⟨by rw [hstruct], hg⟩
            · have := ih ev
              rw [hrec] at this
              exact this hev2

lemma evalFolds_ok_log {α : Type} [Inhabited α] (tf : KModel → List α × List ℕ → KModel)
    (pf : KModel → List α → List (ℚ × ℚ)) (images : List α) (labels : List ℕ)
    (m : String) (L : List (ℕ × (List ℕ × List ℕ))) :
    ∀ rs, (evalFolds tf pf images labels m L).2 = Except.ok rs →
      (evalFolds tf pf images labels m L).1
        = L.map (fun pr => (⟨m, pr.1, KModel.untrained m, pr.2.1, pr.2.2⟩ : TrainEvent))
      ∧ rs.length = L.length := by
  induction L with
  | nil =>
    intro rs hrs
    simp only [evalFolds] at hrs ⊢
    injection hrs with h
    subst h
    simp
  | cons hd rest ih =>
    obtain ⟨f, tr, te⟩ := hd
    intro rs hrs
    cases hf : evalFold tf pf images labels m f tr te with
    | mk oev res =>
      cases res with
      | error e =>
        simp only [evalFolds, hf] at hrs
        exact Except.noConfusion hrs
      | ok r =>
        cases hrec : evalFolds tf pf images labels m rest with
        | mk evs res2 =>
          cases res2 with
          | error e =>
            simp only [evalFolds, hf, hrec] at hrs
            exact Except.noConfusion hrs
          | ok rs2 =>
            simp only [evalFolds, hf, hrec] at hrs ⊢
            injection hrs with h
            subst h
            have hoev : oev = some ⟨m, f, KModel.untrained m, tr, te⟩ := by
              have h2 := evalFold_ok_fst tf pf images labels m f tr te r (by rw [hf])
              rw [hf] at h2
              exact h2
            rcases ih rs2 (by rw [hrec]) with ⟨ih1, ih2⟩
            rw [hrec] at ih1
            simp only [] at ih1
            constructor
            · simp [hoev, ih1]
            · simp [ih2]

lemma skfSplit_ok_facts {labels : List ℕ} {k seed : ℕ} {splits : List (List ℕ × List ℕ)}
    (h : skfSplit labels k seed = Except.ok splits) : splits.length = k ∧ 2 ≤ k := by
  unfold skfSplit at h
  split_ifs at h with h1 h2 h3
  injection h with h4
  subst h4
  exact ⟨by simp, by omega⟩

lemma evalModel_events {α : Type} [Inhabited α] (tf : KModel → List α × List ℕ → KModel)
    (pf : KModel → List α → List (ℚ × ℚ)) (images : List α) (labels : List ℕ)
    (k : ℕ) (m : String) :
    ∀ ev ∈ (evalModel tf pf images labels k m).1,
      ev.modelName = m ∧ get_model m = Except.ok ev.modelArg := by
  unfold evalModel
  cases hs : skfSplit labels k 42 with
  | error e => intro ev hev; simp at hev
  | ok splits => exact evalFolds_events tf pf images labels m splits.enum

lemma evalModel_ok_get_model {α : Type} [Inhabited α] (tf : KModel → List α × List ℕ → KModel)
    (pf : KModel → List α → List (ℚ × ℚ)) (images : List α) (labels : List ℕ)
    (k : ℕ) (m : String) (rs : List FoldRecord)
    (h : (evalModel tf pf images labels k m).2 = Except.ok rs) :
    ∃ mdl, get_model m = Except.ok mdl := by
  unfold evalModel at h
  cases hs : skfSplit labels k 42 with
  | error e => rw [hs] at h; simp at h
  | ok splits =>
    rw [hs] at h
    rcases skfSplit_ok_facts hs with ⟨hlen, hk⟩
    cases splits with
    | nil => simp at hlen; omega
    | cons s ss =>
      obtain ⟨tr, te⟩ := s
      have h2 : (evalFolds tf pf images labels m (((tr, te) :: ss).enum)).2 = Except.ok rs := h
      rw [List.enum_cons] at h2
      cases hf : evalFold tf pf images labels m 0 tr te with
      | mk oev res =>
        cases res with
        | error e =>
          simp only [evalFolds, hf] at h2
          exact Except.noConfusion h2
        | ok r =>
          exact evalFold_ok_get_model tf pf images labels m 0 tr te r (by rw [hf])

lemma runModels_events {α : Type} [Inhabited α] (tf : KModel → List α × List ℕ → KModel)
    (pf : KModel → List α → List (ℚ × ℚ)) (images : List α) (labels : List ℕ)
    (k : ℕ) (ms : List String) :
    ∀ ev ∈ (runModels tf pf images labels k ms).1,
      get_model ev.modelName = Except.ok ev.modelArg
      ∧ ev.modelArg = KModel.untrained ev.modelName := by
  induction ms with
  | nil => intro ev hev; simp [runModels] at hev
  | cons m rest ih =>
    intro ev hev
    cases hm : evalModel tf pf images labels k m with
    | mk evs res =>
      have hfromModel : ev ∈ evs →
          get_model ev.modelName = Except.ok ev.modelArg
          ∧ ev.modelArg = KModel.untrained ev.modelName := by
        intro hev1
        have h2 := evalModel_events tf pf images labels k m ev
        rw [hm] at h2
        rcases h2 hev1 with ⟨hname, hg⟩
        subst hname
        exact ⟨hg, get_model_ok_untrained hg⟩
      cases res with
      | error e =>
        simp only [runModels, hm] at hev
        exact hfromModel hev
      | ok rs =>
        cases hrec : runModels tf pf images labels k rest with
        | mk evs2 res2 =>
          cases res2 with
          | error e =>
            simp only [runModels, hm, hrec] at hev
            rcases List.mem_append.mp hev with hev1 | hev2
            · exact hfromModel hev1
            · have := ih ev
              rw [hrec] at this
              exact this hev2
          | ok ss =>
            simp only [runModels, hm, hrec] at hev
            rcases List.mem_append.mp hev with hev1 | hev2
            · exact hfromModel hev1
            · have := ih ev
              rw [hrec] at this
              exact this hev2

lemma runModels_ok_log {α : Type} [Inhabited α] (tf : KModel → List α × List ℕ → KModel)
    (pf : KModel → List α → List (ℚ × ℚ)) (images : List α) (labels : List ℕ)
    (k : ℕ) (splits : List (List ℕ × List ℕ))
    (hs : skfSplit labels k 42 = Except.ok splits) (ms : List String) :
    ∀ ss, (runModels tf pf images labels k ms).2 = Except.ok ss →
      (runModels tf pf images labels k ms).1
        = ms.flatMap (fun m => splits.enum.map (fun pr =>
            (⟨m, pr.1, KModel.untrained m, pr.2.1, pr.2.2⟩ : TrainEvent))) := by
  induction ms with
  | nil => intro ss _; simp [runModels]
  | cons m rest ih =>
    intro ss hss
    cases hm : evalModel tf pf images labels k m with
    | mk evs res =>
      cases res with
      | error e =>
        simp only [runModels, hm] at hss
        exact Except.noConfusion hss
      | ok rs =>
        cases hrec : runModels tf pf images labels k rest with
        | mk evs2 res2 =>
          cases res2 with
          | error e =>
            simp only [runModels, hm, hrec] at hss
            exact Except.noConfusion hss
          | ok ss2 =>
            simp only [runModels, hm, hrec]
            have hm2 : evalFolds tf pf images labels m splits.enum = (evs, Except.ok rs) := by
              have := hm
              unfold evalModel at this
              rw [hs] at this
              exact this
            rcases evalFolds_ok_log tf pf images labels m splits.enum rs (by rw [hm2]) with ⟨h1, _⟩
            rw [hm2] at h1
            simp only [] at h1
            have h2 := ih ss2 (by rw [hrec])
            rw [hrec] at h2
            simp only [] at h2
            simp [h1, h2]

lemma runModels_ok_spec {α : Type} [Inhabited α] (tf : KModel → List α × List ℕ → KModel)
    (pf : KModel → List α → List (ℚ × ℚ)) (images : List α) (labels : List ℕ)
    (k : ℕ) (ms : List String) :
    ∀ ss, (runModels tf pf images labels k ms).2 = Except.ok ss →
      ss.length = ms.length
      ∧ ∀ i (hi : i < ss.length), ∃ records,
          (evalModel tf pf images labels k (ms.getD i "")).2 = Except.ok records
          ∧ ss.get ⟨i, hi⟩ = mkSummary (ms.getD i "") records := by
  induction ms with
  | nil =>
    intro ss hss
    simp only [runModels] at hss
    injection hss with h
    subst h
    exact ⟨rfl, fun i hi => absurd hi (by simp)⟩
  | cons m rest ih =>
    intro ss hss
    cases hm : evalModel tf pf images labels k m with
    | mk evs res =>
      cases res with
      | error e =>
        simp only [runModels, hm] at hss
        exact Except.noConfusion hss
      | ok rs =>
        cases hrec : runModels tf pf images labels k rest with
        | mk evs2 res2 =>
          cases res2 with
          | error e =>
            simp only [runModels, hm, hrec] at hss
            exact Except.noConfusion hss
          | ok ss2 =>
            simp only [runModels, hm, hrec] at hss
            injection hss with h
            subst h
            rcases ih ss2 (by rw [hrec]) with ⟨ihlen, ihspec⟩
            constructor
            · simp [ihlen]
            · intro i hi
              cases i with
              | zero =>
                refine ⟨rs, ?_, rfl⟩
                rw [show (m :: rest).getD 0 "" = m from rfl, hm]
              | succ n =>
                rcases ihspec n (by simpa using hi) with ⟨records, hr1, hr2⟩
                exact ⟨records, hr1, hr2⟩

lemma runModels_error_of_mem {α : Type} [Inhabited α] (tf : KModel → List α × List ℕ → KModel)
    (pf : KModel → List α → List (ℚ × ℚ)) (images : List α) (labels : List ℕ)
    (k : ℕ) (ms : List String) (m : String) (e : String)
    (hm : m ∈ ms) (he : get_model m = Except.error e) :
    ∃ msg, (runModels tf pf images labels k ms).2 = Except.error msg := by
  induction ms with
  | nil => cases hm
  | cons m2 rest ih =>
    cases hm2 : evalModel tf pf images labels k m2 with
    | mk evs res =>
      cases res with
      | error e2 => exact ⟨e2, by simp [runModels, hm2]⟩
      | ok rs =>
        have hm2ok : ∃ mdl, get_model m2 = Except.ok mdl :=
          evalModel_ok_get_model tf pf images labels k m2 rs (by rw [hm2])
        rcases List.mem_cons.mp hm with rfl | hmrest
        · rcases hm2ok with ⟨mdl, hmdl⟩
          rw [hmdl] at he
          exact Except.noConfusion he
        · rcases ih hmrest with ⟨msg, hmsg⟩
          cases hrec : runModels tf pf images labels k rest with
          | mk evs2 res2 =>
            rw [hrec] at hmsg
            cases res2 with
            | error e3 => exact ⟨e3, by simp [runModels, hm2, hrec]⟩
            | ok ss =>
              simp only [] at hmsg
              exact Except.noConfusion hmsg

/-- C3: on a successful run, each model's summary row is the arithmetic
mean of that model's per-fold records: there are exactly `k` records (one
per fold), and each metric field of the summary equals the sum of that
metric over the records divided by `k`. -/
theorem C3_summary_is_fold_mean {α : Type} [Inhabited α]
    (tf : KModel → List α × List ℕ → KModel) (pf : KModel → List α → List (ℚ × ℚ))
    (images : List α) (labels : List ℕ) (models : List String) (k : ℕ)
    (summaries : List ModelSummary)
    (hok : (federated_kfold_cross_validation tf pf images labels models k).2
      = Except.ok summaries) :
    summaries.length = models.length
    ∧ ∀ i (hi : i < summaries.length), ∃ records,
        (evalModel tf pf images labels k (models.getD i "")).2 = Except.ok records
        ∧ records.length = k
        ∧ (summaries.get ⟨i, hi⟩).model = models.getD i ""
        ∧ (summaries.get ⟨i, hi⟩).accuracy = (records.map FoldRecord.accuracy).sum / (k : ℚ)
        ∧ (summaries.get ⟨i, hi⟩).sensitivity = (records.map FoldRecord.sensitivity).sum / (k : ℚ)
        ∧ (summaries.get ⟨i, hi⟩).specificity = (records.map FoldRecord.specificity).sum / (k : ℚ)
        ∧ (summaries.get ⟨i, hi⟩).roc_auc = (records.map FoldRecord.roc_auc).sum / (k : ℚ) := by
  unfold federated_kfold_cross_validation at hok
  rcases Nat.lt_or_ge k 2 with hk | hk
  · rw [if_pos hk] at hok
    exact Except.noConfusion hok
  · rw [if_neg (Nat.not_lt.mpr hk)] at hok
    rcases runModels_ok_spec tf pf images labels k models summaries hok with ⟨hlen, hspec⟩
    refine ⟨hlen, ?_⟩
    intro i hi
    rcases hspec i hi with ⟨records, hrec, hsum⟩
    have hrk : records.length = k := by
      unfold evalModel at hrec
      cases hs : skfSplit labels k 42 with
      | error e => rw [hs] at hrec; simp at hrec
      | ok splits =>
        rw [hs] at hrec
        rcases evalFolds_ok_log tf pf images labels (models.getD i "") splits.enum records hrec
          with ⟨_, hlen2⟩
        rcases skfSplit_ok_facts hs with ⟨hsplen, _⟩
        rw [hlen2, List.enum_length, hsplen]
    have hmaplen : ∀ g : FoldRecord → ℚ, ((records.map g).length : ℚ) = (k : ℚ) := by
      intro g
      rw [List.length_map, hrk]
    refine ⟨records, hrec, hrk, ?_, ?_, ?_, ?_, ?_⟩ <;>
      rw [hsum] <;>
      unfold mkSummary meanQ <;>
      simp only [hmaplen]

/-- C4: the harness is a pure function of its inputs (two runs with the
same inputs, hence the same hardwired seed 42, coincide), and on a
successful run the training log is exactly: for every model in list order,
one training invocation per fold of the one canonical split list
`skfSplit labels k 42` - so every model is trained and tested on identical
(train, test) splits even though the splitter is invoked once per model. -/
theorem C4_same_splits_for_all_models {α : Type} [Inhabited α]
    (tf : KModel → List α × List ℕ → KModel) (pf : KModel → List α → List (ℚ × ℚ))
    (images : List α) (labels : List ℕ) (models : List String) (k : ℕ)
    (splits : List (List ℕ × List ℕ)) (summaries : List ModelSummary)
    (hs : skfSplit labels k 42 = Except.ok splits)
    (hok : (federated_kfold_cross_validation tf pf images labels models k).2
      = Except.ok summaries) :
    federated_kfold_cross_validation tf pf images labels models k
      = federated_kfold_cross_validation tf pf images labels models k
    ∧ (federated_kfold_cross_validation tf pf images labels models k).1
      = models.flatMap (fun m => splits.enum.map (fun pr =>
          (⟨m, pr.1, KModel.untrained m, pr.2.1, pr.2.2⟩ : TrainEvent))) := by
  refine ⟨rfl, ?_⟩
  unfold federated_kfold_cross_validation at hok ⊢
  rcases Nat.lt_or_ge k 2 with hk | hk
  · rw [if_pos hk] at hok
    exact Except.noConfusion hok
  · rw [if_neg (Nat.not_lt.mpr hk)] at hok ⊢
    exact runModels_ok_log tf pf images labels k splits hs models summaries hok

/-- C6 (amended): requesting a model id outside the closed architecture
set makes the run fail, and no training is ever attempted for that model
(the training log holds no event for it); the error surfaces only when
the loop reaches that model, so models earlier in the list do train first.
When the unsupported id is the first model and the splitter succeeds, the
failure is immediate: the unsupported-model error with an empty log. -/
theorem C6_unsupported_model_amended {α : Type} [Inhabited α]
    (tf : KModel → List α × List ℕ → KModel) (pf : KModel → List α → List (ℚ × ℚ))
    (images : List α) (labels : List ℕ) (models : List String) (k : ℕ)
    (m : String) (e : String) (hm : m ∈ models) (he : get_model m = Except.error e) :
    (∃ msg, (federated_kfold_cross_validation tf pf images labels models k).2
        = Except.error msg)
    ∧ (∀ ev ∈ (federated_kfold_cross_validation tf pf images labels models k).1,
        ev.modelName ≠ m)
    ∧ (∀ splits rest, skfSplit labels k 42 = Except.ok splits → models = m :: rest →
        federated_kfold_cross_validation tf pf images labels models k
          = ([], Except.error e)) := by
  refine ⟨?_, ?_, ?_⟩
  · unfold federated_kfold_cross_validation
    rcases Nat.lt_or_ge k 2 with hk | hk
    · rw [if_pos hk]
      exact ⟨_, rfl⟩
    · rw [if_neg (Nat.not_lt.mpr hk)]
      exact runModels_error_of_mem tf pf images labels k models m e hm he
  · intro ev hev hname
    unfold federated_kfold_cross_validation at hev
    rcases Nat.lt_or_ge k 2 with hk | hk
    · rw [if_pos hk] at hev
      simp at hev
    · rw [if_neg (Nat.not_lt.mpr hk)] at hev
      rcases runModels_events tf pf images labels k models ev hev with ⟨hg, _⟩
      rw [hname, he] at hg
      exact Except.noConfusion hg
  · intro splits rest hsp hmodels
    subst hmodels
    rcases skfSplit_ok_facts hsp with ⟨hsplen, hk⟩
    unfold federated_kfold_cross_validation
    rw [if_neg (Nat.not_lt.mpr hk)]
    cases splits with
    | nil => rw [List.length_nil] at hsplen; omega
    | cons s ss =>
      obtain ⟨tr, te⟩ := s
      have hev : evalModel tf pf images labels k m = ([], Except.error e) := by
        have h2 : evalFolds tf pf images labels m (((tr, te) :: ss).enum)
            = ([], Except.error e) := by
          rw [List.enum_cons]
          simp [evalFolds, evalFold_unsupported tf pf images labels m 0 tr te e he]
        unfold evalModel
        rw [hsp]
        exact h2
      simp only [runModels, hev]

/-- C7: every training invocation the harness ever performs receives the
factory-fresh untrained model instance for its model name - trained
weights from one fold or one model never reach another training call. -/
theorem C7_fresh_model_per_fold {α : Type} [Inhabited α]
    (tf : KModel → List α × List ℕ → KModel) (pf : KModel → List α → List (ℚ × ℚ))
    (images : List α) (labels : List ℕ) (models : List String) (k : ℕ) :
    ∀ ev ∈ (federated_kfold_cross_validation tf pf images labels models k).1,
      get_model ev.modelName = Except.ok ev.modelArg
      ∧ ev.modelArg = KModel.untrained ev.modelName := by
  unfold federated_kfold_cross_validation
  rcases Nat.lt_or_ge k 2 with hk | hk
  · rw [if_pos hk]
    intro ev hev
    simp at hev
  · rw [if_neg (Nat.not_lt.mpr hk)]
    exact runModels_events tf pf images labels k models

/-- Concrete instantiation of the opaque training capability, used only to
exercise the harness on closed inputs: it wraps the model it was given. -/
def sampleTrain : KModel → List ℕ × List ℕ → KModel := fun m _ => KModel.trained m

/-- Concrete instantiation of the opaque prediction capability, used only
to exercise the harness on closed inputs: positive-class probability 1/4
on even positions and 3/4 on odd positions. -/
def samplePredict : KModel → List ℕ → List (ℚ × ℚ) :=
  fun _ xs => (List.range xs.length).map
    (fun i => if i % 2 == 0 then ((3 : ℚ)/4, (1 : ℚ)/4) else ((1 : ℚ)/4, (3 : ℚ)/4))

lemma sample_fold_metrics :
    calculate_metricsDefault [0, 1] [((3 : ℚ)/4, (1 : ℚ)/4), ((1 : ℚ)/4, (3 : ℚ)/4)]
      = Except.ok ⟨1, 1, 1, 1⟩ := by
  unfold calculate_metricsDefault calculate_metrics
  have hb : binarize [((3 : ℚ)/4, (1 : ℚ)/4), ((1 : ℚ)/4, (3 : ℚ)/4)] defaultThreshold
      = [0, 1] := by
    norm_num [binarize, defaultThreshold]
  rw [hb]
  unfold metricsFromPred
  rw [if_neg (by decide)]
  have hcm : cmRavel [0, 1] [0, 1] = [1, 0, 0, 1] := by decide
  rw [hcm]
  have hroc : rocAucScore [0, 1] [(1 : ℚ)/4, (3 : ℚ)/4] = Except.ok 1 := by
    norm_num [rocAucScore, posScores, negScores, List.zip]
  norm_num [hroc, guardedDiv]

lemma sample_evalFold0 :
    evalFold sampleTrain samplePredict [10, 20, 30, 40] [0, 0, 1, 1] "resnet" 0 [1, 2] [0, 3]
      = (some ⟨"resnet", 0, KModel.untrained "resnet", [1, 2], [0, 3]⟩,
         Except.ok ⟨1, 1, 1, 1, 1⟩) := by
  have step : evalFold sampleTrain samplePredict [10, 20, 30, 40] [0, 0, 1, 1] "resnet" 0 [1, 2] [0, 3]
      = (some ⟨"resnet", 0, KModel.untrained "resnet", [1, 2], [0, 3]⟩,
         match calculate_metricsDefault [0, 1] [((3 : ℚ)/4, (1 : ℚ)/4), ((1 : ℚ)/4, (3 : ℚ)/4)] with
         | Except.error e => Except.error e
         | Except.ok r =>
           Except.ok ⟨((0 : ℕ) : ℚ) + 1, r.accuracy, r.sensitivity, r.specificity, r.roc_auc⟩) := rfl
  rw [step, sample_fold_metrics]
  norm_num

lemma sample_evalFold1 :
    evalFold sampleTrain samplePredict [10, 20, 30, 40] [0, 0, 1, 1] "resnet" 1 [0, 3] [1, 2]
      = (some ⟨"resnet", 1, KModel.untrained "resnet", [0, 3], [1, 2]⟩,
         Except.ok ⟨2, 1, 1, 1, 1⟩) := by
  have step : evalFold sampleTrain samplePredict [10, 20, 30, 40] [0, 0, 1, 1] "resnet" 1 [0, 3] [1, 2]
      = (some ⟨"resnet", 1, KModel.untrained "resnet", [0, 3], [1, 2]⟩,
         match calculate_metricsDefault [0, 1] [((3 : ℚ)/4, (1 : ℚ)/4), ((1 : ℚ)/4, (3 : ℚ)/4)] with
         | Except.error e => Except.error e
         | Except.ok r =>
           Except.ok ⟨((1 : ℕ) : ℚ) + 1, r.accuracy, r.sensitivity, r.specificity, r.roc_auc⟩) := rfl
  rw [step, sample_fold_metrics]
  norm_num

lemma sample_evalModel :
    evalModel sampleTrain samplePredict [10, 20, 30, 40] [0, 0, 1, 1] 2 "resnet"
      = ([⟨"resnet", 0, KModel.untrained "resnet", [1, 2], [0, 3]⟩,
          ⟨"resnet", 1, KModel.untrained "resnet", [0, 3], [1, 2]⟩],
         Except.ok [⟨1, 1, 1, 1, 1⟩, ⟨2, 1, 1, 1, 1⟩]) := by
  have h2 : evalFolds sampleTrain samplePredict [10, 20, 30, 40] [0, 0, 1, 1] "resnet"
      [((0 : ℕ), (([1, 2] : List ℕ), ([0, 3] : List ℕ))), (1, ([0, 3], [1, 2]))]
      = ([⟨"resnet", 0, KModel.untrained "resnet", [1, 2], [0, 3]⟩,
          ⟨"resnet", 1, KModel.untrained "resnet", [0, 3], [1, 2]⟩],
         Except.ok [⟨1, 1, 1, 1, 1⟩, ⟨2, 1, 1, 1, 1⟩]) := by
    simp [evalFolds, sample_evalFold0, sample_evalFold1]
  unfold evalModel
  rw [show skfSplit [0, 0, 1, 1] 2 42 = Except.ok [([1, 2], [0, 3]), ([0, 3], [1, 2])] from rfl]
  exact h2

lemma sample_evalModel_junk :
    evalModel sampleTrain samplePredict [10, 20, 30, 40] [0, 0, 1, 1] 2 "junk"
      = ([], Except.error "Unsupported model name.") := by
  have h2 : evalFolds sampleTrain samplePredict [10, 20, 30, 40] [0, 0, 1, 1] "junk"
      [((0 : ℕ), (([1, 2] : List ℕ), ([0, 3] : List ℕ))), (1, ([0, 3], [1, 2]))]
      = ([], Except.error "Unsupported model name.") := by
    simp [evalFolds, evalFold_unsupported sampleTrain samplePredict [10, 20, 30, 40]
      [0, 0, 1, 1] "junk" 0 [1, 2] [0, 3] "Unsupported model name." rfl]
  unfold evalModel
  rw [show skfSplit [0, 0, 1, 1] 2 42 = Except.ok [([1, 2], [0, 3]), ([0, 3], [1, 2])] from rfl]
  exact h2

lemma sample_run :
    federated_kfold_cross_validation sampleTrain samplePredict [10, 20, 30, 40] [0, 0, 1, 1]
      ["resnet"] 2
      = ([⟨"resnet", 0, KModel.untrained "resnet", [1, 2], [0, 3]⟩,
          ⟨"resnet", 1, KModel.untrained "resnet", [0, 3], [1, 2]⟩],
         Except.ok [⟨"resnet", (3 : ℚ)/2, 1, 1, 1, 1⟩]) := by
  unfold federated_kfold_cross_validation
  rw [if_neg (by omega)]
  simp only [runModels, sample_evalModel]
  norm_num [mkSummary, meanQ]

lemma sample_run_err :
    federated_kfold_cross_validation sampleTrain samplePredict [10, 20, 30, 40] [0, 0, 1, 1]
      ["resnet", "junk"] 2
      = ([⟨"resnet", 0, KModel.untrained "resnet", [1, 2], [0, 3]⟩,
          ⟨"resnet", 1, KModel.untrained "resnet", [0, 3], [1, 2]⟩],
         Except.error "Unsupported model name.") := by
  unfold federated_kfold_cross_validation
  rw [if_neg (by omega)]
  simp only [runModels, sample_evalModel, sample_evalModel_junk]
  simp

/-- Counterexample to C6 as stated: with the request list
["resnet", "junk"], the run does raise the unsupported-model error, but
only after two training invocations (the two folds of "resnet") have
already been performed - the error is not raised before any training is
attempted. -/
theorem C6_counterexample :
    (federated_kfold_cross_validation sampleTrain samplePredict [10, 20, 30, 40] [0, 0, 1, 1]
        ["resnet", "junk"] 2).2 = Except.error "Unsupported model name."
    ∧ (federated_kfold_cross_validation sampleTrain samplePredict [10, 20, 30, 40] [0, 0, 1, 1]
        ["resnet", "junk"] 2).1.length = 2 := by
  rw [sample_run_err]
  exact ⟨rfl, rfl⟩

/-- Witness for the amended C6 on the concrete run with the unsupported
model id "junk" listed after "resnet". -/
theorem C6_unsupported_model_amended_witness :
    (∃ msg, (federated_kfold_cross_validation sampleTrain samplePredict [10, 20, 30, 40]
        [0, 0, 1, 1] ["resnet", "junk"] 2).2 = Except.error msg)
    ∧ (∀ ev ∈ (federated_kfold_cross_validation sampleTrain samplePredict [10, 20, 30, 40]
        [0, 0, 1, 1] ["resnet", "junk"] 2).1, ev.modelName ≠ "junk")
    ∧ (∀ splits rest, skfSplit [0, 0, 1, 1] 2 42 = Except.ok splits →
        ["resnet", "junk"] = "junk" :: rest →
        federated_kfold_cross_validation sampleTrain samplePredict [10, 20, 30, 40]
          [0, 0, 1, 1] ["resnet", "junk"] 2
          = ([], Except.error "Unsupported model name.")) :=
  C6_unsupported_model_amended sampleTrain samplePredict [10, 20, 30, 40] [0, 0, 1, 1]
    ["resnet", "junk"] 2 "junk" "Unsupported model name." (by simp) rfl

/-- Witness for C3 on a concrete successful 2-fold run of one model. -/
theorem C3_summary_is_fold_mean_witness :
    ([⟨"resnet", (3 : ℚ)/2, 1, 1, 1, 1⟩] : List ModelSummary).length
      = (["resnet"] : List String).length
    ∧ ∀ i (hi : i < ([⟨"resnet", (3 : ℚ)/2, 1, 1, 1, 1⟩] : List ModelSummary).length),
        ∃ records,
        (evalModel sampleTrain samplePredict [10, 20, 30, 40] [0, 0, 1, 1] 2
            ((["resnet"] : List String).getD i "")).2 = Except.ok records
        ∧ records.length = 2
        ∧ (([⟨"resnet", (3 : ℚ)/2, 1, 1, 1, 1⟩] : List ModelSummary).get ⟨i, hi⟩).model
            = (["resnet"] : List String).getD i ""
        ∧ (([⟨"resnet", (3 : ℚ)/2, 1, 1, 1, 1⟩] : List ModelSummary).get ⟨i, hi⟩).accuracy
            = (records.map FoldRecord.accuracy).sum / ((2 : ℕ) : ℚ)
        ∧ (([⟨"resnet", (3 : ℚ)/2, 1, 1, 1, 1⟩] : List ModelSummary).get ⟨i, hi⟩).sensitivity
            = (records.map FoldRecord.sensitivity).sum / ((2 : ℕ) : ℚ)
        ∧ (([⟨"resnet", (3 : ℚ)/2, 1, 1, 1, 1⟩] : List ModelSummary).get ⟨i, hi⟩).specificity
            = (records.map FoldRecord.specificity).sum / ((2 : ℕ) : ℚ)
        ∧ (([⟨"resnet", (3 : ℚ)/2, 1, 1, 1, 1⟩] : List ModelSummary).get ⟨i, hi⟩).roc_auc
            = (records.map FoldRecord.roc_auc).sum / ((2 : ℕ) : ℚ) :=
  C3_summary_is_fold_mean sampleTrain samplePredict [10, 20, 30, 40] [0, 0, 1, 1]
    ["resnet"] 2 [⟨"resnet", (3 : ℚ)/2, 1, 1, 1, 1⟩] (by rw [sample_run])

/-- Witness for C4 on the same concrete run: the training log is the
per-model expansion of the one canonical split list. -/
theorem C4_same_splits_for_all_models_witness :
    federated_kfold_cross_validation sampleTrain samplePredict [10, 20, 30, 40] [0, 0, 1, 1]
        ["resnet"] 2
      = federated_kfold_cross_validation sampleTrain samplePredict [10, 20, 30, 40] [0, 0, 1, 1]
        ["resnet"] 2
    ∧ (federated_kfold_cross_validation sampleTrain samplePredict [10, 20, 30, 40] [0, 0, 1, 1]
        ["resnet"] 2).1
      = (["resnet"] : List String).flatMap (fun m =>
          (([([1, 2], [0, 3]), ([0, 3], [1, 2])] : List (List ℕ × List ℕ)).enum).map (fun pr =>
            (⟨m, pr.1, KModel.untrained m, pr.2.1, pr.2.2⟩ : TrainEvent))) :=
  C4_same_splits_for_all_models sampleTrain samplePredict [10, 20, 30, 40] [0, 0, 1, 1]
    ["resnet"] 2 [([1, 2], [0, 3]), ([0, 3], [1, 2])] [⟨"resnet", (3 : ℚ)/2, 1, 1, 1, 1⟩]
    rfl (by rw [sample_run])

/-- Witness for C7 at the first training event of the concrete run. -/
theorem C7_fresh_model_per_fold_witness :
    get_model (⟨"resnet", 0, KModel.untrained "resnet", [1, 2], [0, 3]⟩ : TrainEvent).modelName
      = Except.ok (⟨"resnet", 0, KModel.untrained "resnet", [1, 2], [0, 3]⟩ : TrainEvent).modelArg
    ∧ (⟨"resnet", 0, KModel.untrained "resnet", [1, 2], [0, 3]⟩ : TrainEvent).modelArg
      = KModel.untrained
          (⟨"resnet", 0, KModel.untrained "resnet", [1, 2], [0, 3]⟩ : TrainEvent).modelName :=
  C7_fresh_model_per_fold sampleTrain samplePredict [10, 20, 30, 40] [0, 0, 1, 1] ["resnet"] 2
    ⟨"resnet", 0, KModel.untrained "resnet", [1, 2], [0, 3]⟩ (by rw [sample_run]; simp)

end ProiectFL
